import Mathlib

/-!
Shallow embedding of the bookmark-tree model of BibleTime's
`src/backend/btbookmarksmodel.cpp`: the folder/bookmark tree, the XML
codec (`serializeTreeFromRootItem` / `loadTree` / `handleXmlElement`),
the load / copy / sort operations of `BtBookmarksModel`, and the
debounced-save timer (`needSave`).  External collaborators (the sword
module registry and the verse-key localization service) are modelled as
parameters.
-/

namespace BtBookmarks

/-- Type of a sword module, as tested by `CSwordModuleInfo::type()`. -/
inductive ModType where
  | Bible
  | Commentary
  | GenericBook
  | Lexicon
deriving DecidableEq

/-- The slice of `CSwordModuleInfo` the bookmark model consumes: its name,
its configured description and its type. -/
structure ModuleInfo where
  name : String
  description : String
  mtype : ModType
deriving DecidableEq

/-- The module registry (`CSwordBackend::findModuleByName`): resolves a
module name to a module, or to nothing when the module is not installed. -/
abbrev Registry := String → Option ModuleInfo

/-- The external verse-key localization service (`CSwordVerseKey` with a
locale): maps a module and a stored key to a displayed key.  Used only for
Bible/Commentary modules. -/
abbrev Localizer := ModuleInfo → String → String

/-- The header string `"%1 (%2)"` built by the anonymous-namespace helper
`toHeader(key, moduleName)`. -/
def toHeader (key moduleName : String) : String :=
  key ++ " (" ++ moduleName ++ ")"

/-- `BookmarkItem::key()`: the stored (english) key, localized through the
external service when the module exists and is a Bible or a Commentary. -/
def bookmarkDisplayKey (reg : Registry) (loc : Localizer)
    (moduleName englishKey : String) : String :=
  match reg moduleName with
  | none => englishKey
  | some m =>
      if m.mtype = ModType.Bible ∨ m.mtype = ModType.Commentary then
        loc m englishKey
      else englishKey

/-- The module name shown in a synthesized header: the resolved module's
name, or the translated string "unknown" when the module is absent. -/
def moduleNameOrUnknown (reg : Registry) (moduleName : String) : String :=
  match reg moduleName with
  | some m => m.name
  | none => "unknown"

/-- The `moduledescription` attribute value written by `saveItem`: the
module's configured description, or empty when the module is absent. -/
def moduleDescriptionOf (reg : Registry) (moduleName : String) : String :=
  match reg moduleName with
  | some m => m.description
  | none => ""

/-- A node of the bookmark tree: a `BookmarkFolder` (caption plus ordered
children) or a `BookmarkItem` (key, description, module name and display
text).  This is the data model of the specification; `title` is the
display text (`BookmarkItemBase::m_text`) of a bookmark. -/
inductive Item where
  | folder (caption : String) (children : List Item)
  | bookmark (key description moduleName title : String)

mutual

/-- Decidable equality of tree nodes (by structure, embedding C++ pointer
identity as value identity on the modelled fields). -/
def decEqItem : (a b : Item) → Decidable (a = b)
  | Item.folder c cs, Item.folder c' cs' =>
      match String.decEq c c', decEqItemList cs cs' with
      | isTrue h1, isTrue h2 => isTrue (by rw [h1, h2])
      | isFalse h1, _ => isFalse (fun h => by cases h; exact h1 rfl)
      | _, isFalse h2 => isFalse (fun h => by cases h; exact h2 rfl)
  | Item.folder _ _, Item.bookmark _ _ _ _ => isFalse (fun h => Item.noConfusion h)
  | Item.bookmark _ _ _ _, Item.folder _ _ => isFalse (fun h => Item.noConfusion h)
  | Item.bookmark k d m t, Item.bookmark k' d' m' t' =>
      if h : k = k' ∧ d = d' ∧ m = m' ∧ t = t' then
        isTrue (by rw [h.1, h.2.1, h.2.2.1, h.2.2.2])
      else
        isFalse (fun he => by cases he; exact h ⟨rfl, rfl, rfl, rfl⟩)

/-- Decidable equality of lists of tree nodes. -/
def decEqItemList : (l l' : List Item) → Decidable (l = l')
  | [], [] => isTrue rfl
  | [], _ :: _ => isFalse (fun h => List.noConfusion h)
  | _ :: _, [] => isFalse (fun h => List.noConfusion h)
  | a :: as, b :: bs =>
      match decEqItem a b, decEqItemList as bs with
      | isTrue h1, isTrue h2 => isTrue (by rw [h1, h2])
      | isFalse h1, _ => isFalse (fun h => by cases h; exact h1 rfl)
      | _, isFalse h2 => isFalse (fun h => by cases h; exact h2 rfl)

end

instance : DecidableEq Item := decEqItem

/-- `BookmarkItemBase::children()` read off a node; bookmarks own no
children in the tree data model. -/
def getChildList : Item → List Item
  | Item.folder _ cs => cs
  | Item.bookmark _ _ _ _ => []

/-- Does `dynamic_cast<BookmarkFolder*>` succeed on this node? -/
def isFolder : Item → Bool
  | Item.folder _ _ => true
  | Item.bookmark _ _ _ _ => false

/-- `BookmarkItemBase::text()`: a folder's caption, a bookmark's title. -/
def itemText : Item → String
  | Item.folder c _ => c
  | Item.bookmark _ _ _ t => t

/-- `QList::indexOf(item) > -1` over a child list, by pointer identity,
embedded as value identity. -/
def listContains : List Item → Item → Bool
  | [], _ => false
  | c :: rest, x => if c = x then true else listContains rest x

mutual

/-- `BookmarkFolder::hasDescendant(item)` exactly as written in the code:
true when `item` is `this`; else true when `item` is a direct child; else
the loop over the children calls, for each child that is itself a folder,
`folder->hasDescendant(childItem)` on that very child. -/
def hasDescendant : Item → Item → Bool
  | Item.folder cap cs, item =>
      if Item.folder cap cs = item then true
      else if listContains cs item then true
      else anyFolderChildSelfCheck cs
  | Item.bookmark k d m t, item =>
      if Item.bookmark k d m t = item then true else false

/-- The recursive loop body of `hasDescendant`: for each child that casts
to a folder, test `folder->hasDescendant(childItem)` (the child against
itself, as the source does). -/
def anyFolderChildSelfCheck : List Item → Bool
  | [] => false
  | c :: rest =>
      (match c with
       | Item.folder cap cs => hasDescendant (Item.folder cap cs) (Item.folder cap cs)
       | Item.bookmark _ _ _ _ => false) || anyFolderChildSelfCheck rest

end

mutual

/-- Reference predicate: does `needle` occur in the subtree rooted at the
second argument (as the node itself or anywhere below it)?  This is the
recursively flattened containment the specification describes. -/
def occursIn (needle : Item) : Item → Bool
  | Item.folder cap cs =>
      if Item.folder cap cs = needle then true else occursInList needle cs
  | Item.bookmark k d m t =>
      if Item.bookmark k d m t = needle then true else false

/-- List companion of `occursIn`. -/
def occursInList (needle : Item) : List Item → Bool
  | [] => false
  | c :: rest => occursIn needle c || occursInList needle rest

end

/-- The copy constructor `BookmarkItem(const BookmarkItem&)`: the value
fields are copied, but the display text is recomputed from the copied key
and module name as a synthesized header (so a custom title is replaced). -/
def copyBookmark (reg : Registry) (loc : Localizer) : Item → Item
  | Item.bookmark k d m _ =>
      Item.bookmark k d m
        (toHeader (bookmarkDisplayKey reg loc m k) (moduleNameOrUnknown reg m))
  | f => f

mutual

/-- `BookmarkFolder::deepCopy()`: a fresh folder with the same caption
whose children are value copies — bookmarks through the bookmark copy
constructor, subfolders through a recursive deep copy. -/
def deepCopy (reg : Registry) (loc : Localizer) : Item → Item
  | Item.folder c cs => Item.folder c (deepCopyChildren reg loc cs)
  | b => b

/-- The child loop of `deepCopy`. -/
def deepCopyChildren (reg : Registry) (loc : Localizer) : List Item → List Item
  | [] => []
  | Item.bookmark k d m t :: rest =>
      copyBookmark reg loc (Item.bookmark k d m t)
        :: deepCopyChildren reg loc rest
  | Item.folder c cs :: rest =>
      deepCopy reg loc (Item.folder c cs) :: deepCopyChildren reg loc rest

end

/-! XML documents: elements with a tag, attributes in document order, and
child elements.  Attribute lookup models `QDomElement::attribute` /
`hasAttribute`. -/

/-- An XML element as handled by the codec. -/
inductive XmlElem where
  | mk (tag : String) (attrs : List (String × String)) (children : List XmlElem)

/-- Tag name of an element. -/
def XmlElem.tag : XmlElem → String
  | XmlElem.mk t _ _ => t

/-- Attribute list of an element. -/
def XmlElem.attrs : XmlElem → List (String × String)
  | XmlElem.mk _ a _ => a

/-- Child elements of an element. -/
def XmlElem.childElems : XmlElem → List XmlElem
  | XmlElem.mk _ _ c => c

/-- Attribute lookup by name: the first binding, if any. -/
def lookupAttr (name : String) : List (String × String) → Option String
  | [] => none
  | (n, v) :: rest => if n = name then some v else lookupAttr name rest

mutual

/-- `BtBookmarksModelPrivate::saveItem` for one node, producing the emitted
element: folders become `Folder` elements with a `caption` attribute and
recursively saved children; bookmarks become `Bookmark` elements with
`key`, `description`, `modulename` and `moduledescription` attributes, plus
a `title` attribute only when the display text is non-empty. -/
def saveItem (reg : Registry) : Item → XmlElem
  | Item.folder c cs => XmlElem.mk "Folder" [("caption", c)] (saveItemList reg cs)
  | Item.bookmark k d m t =>
      XmlElem.mk "Bookmark"
        ([("key", k), ("description", d), ("modulename", m),
          ("moduledescription", moduleDescriptionOf reg m)] ++
         (if t = "" then [] else [("title", t)]))
        []

/-- The child loop of `saveItem` on a folder. -/
def saveItemList (reg : Registry) : List Item → List XmlElem
  | [] => []
  | i :: is => saveItem reg i :: saveItemList reg is

end

/-- `BtBookmarksModelPrivate::serializeTreeFromRootItem`: the document root
element `SwordBookmarks` with `syntaxVersion` 1, holding the saved children
of the given root item. -/
def serializeTreeFromRootItem (reg : Registry) (rootItem : Item) : XmlElem :=
  XmlElem.mk "SwordBookmarks" [("syntaxVersion", "1")]
    (saveItemList reg (getChildList rootItem))

mutual

/-- `BtBookmarksModelPrivate::handleXmlElement`: a `Folder` element yields
a folder whose caption is the `caption` attribute (empty when absent) and
whose children are the recursively handled child elements (null results
skipped); a `Bookmark` element yields a bookmark whose display text is
synthesized in the constructor — from the not-yet-assigned key and module
fields — and then overwritten by the `title` attribute when present; any
other tag yields nothing (a null pointer in the source). -/
def handleXmlElement (reg : Registry) (loc : Localizer) : XmlElem → Option Item
  | XmlElem.mk tag attrs children =>
      if tag = "Folder" then
        some (Item.folder
          (match lookupAttr "caption" attrs with
           | some c => c
           | none => "")
          (handleXmlList reg loc children))
      else if tag = "Bookmark" then
        let constructedText :=
          toHeader (bookmarkDisplayKey reg loc "" "") (moduleNameOrUnknown reg "")
        some (Item.bookmark
          ((lookupAttr "key" attrs).getD "")
          ((lookupAttr "description" attrs).getD "")
          ((lookupAttr "modulename" attrs).getD "")
          ((lookupAttr "title" attrs).getD constructedText))
      else none

/-- The child loop of the `Folder` branch of `handleXmlElement`: children
are attached through their constructor, so null results of unknown tags
leave no child behind. -/
def handleXmlList (reg : Registry) (loc : Localizer) : List XmlElem → List Item
  | [] => []
  | e :: es =>
      match handleXmlElement reg loc e with
      | some i => i :: handleXmlList reg loc es
      | none => handleXmlList reg loc es

end

/-- Outcome of reading the bookmark source (`loadXmlFromFile` plus
`QDomDocument::setContent`): the file may be absent (a null string is
returned), present but empty or not parseable as XML (the document element
is null, so its tag name is empty), or parsed into a root element. -/
inductive XmlSource where
  | absent
  | unparseable
  | parsed (doc : XmlElem)

/-- `BtBookmarksModelPrivate::loadTree` on a parsed document: nothing when
the root tag is not `SwordBookmarks`; otherwise the top-level elements are
handled one by one and every result — including the null results of
unknown tags — is appended to the returned list. -/
def loadTreeFromDoc (reg : Registry) (loc : Localizer) (doc : XmlElem) :
    List (Option Item) :=
  if doc.tag = "SwordBookmarks" then
    doc.childElems.map (handleXmlElement reg loc)
  else []

/-- `loadTree` over the three source outcomes: an absent file returns
nothing before parsing; an unreadable or empty file parses to a null
document element whose empty tag fails the root-tag check. -/
def loadTree (reg : Registry) (loc : Localizer) : XmlSource → List (Option Item)
  | XmlSource.absent => []
  | XmlSource.unparseable => loadTreeFromDoc reg loc (XmlElem.mk "" [] [])
  | XmlSource.parsed doc => loadTreeFromDoc reg loc doc

/-- A source on which `loadTree` fails: absent, unreadable or empty, or
carrying a root element that is not `SwordBookmarks`. -/
def badSource : XmlSource → Bool
  | XmlSource.absent => true
  | XmlSource.unparseable => true
  | XmlSource.parsed doc => decide (doc.tag ≠ "SwordBookmarks")

/-! The model engine: tree state, load, copy, sort.  Model indexes are
paths of child positions from the root item; the invalid `QModelIndex`
resolves to the root item itself, i.e. the empty path. -/

/-- Observable state of a `BtBookmarksModel`: the owned root folder,
whether this model has been registered as the process-wide default model
(`m_defaultModel`), and whether the save timer's timeout has been
connected to the save slot. -/
structure ModelState where
  root : Item
  defaultRegistered : Bool
  timerConnected : Bool
deriving DecidableEq

/-- Resolve a path to the node it addresses (`BtBookmarksModelPrivate::item`
composed along an index chain); `none` when the path leaves the tree. -/
def nodeAt : Item → List Nat → Option Item
  | it, [] => some it
  | it, i :: p =>
      match (getChildList it)[i]? with
      | some c => nodeAt c p
      | none => none

/-- `BookmarkItemBase::insertChildren(pos, items)` applied to the node at
a path: the items are spliced into that node's child list at `pos` (an
out-of-range `pos` appends, as `QList::insert` does); `none` when the path
is invalid or the addressed node is a bookmark, which holds no children in
the tree data model. -/
def insertAtPath : Item → List Nat → Nat → List Item → Option Item
  | Item.folder c cs, [], pos, items =>
      some (Item.folder c (cs.take pos ++ items ++ cs.drop pos))
  | Item.bookmark _ _ _ _, [], _, _ => none
  | Item.folder c cs, i :: p, pos, items =>
      match cs[i]? with
      | none => none
      | some child =>
          (insertAtPath child p pos items).map
            (fun child' => Item.folder c (cs.set i child'))
  | Item.bookmark _ _ _ _, _ :: _, _, _ => none

/-- Dereference every pointer of a decoded item list: `none` as soon as a
null pointer is among them (the source would crash dereferencing it). -/
def collectItems : List (Option Item) → Option (List Item)
  | [] => some []
  | none :: _ => none
  | some i :: rest => (collectItems rest).map (fun l => i :: l)

/-- `BtBookmarksModel::load(fileName, rootItem)`: decode the source into a
list of top-level items; when called with an invalid root index and an
empty file name, register this model as the default model and connect the
save timer — before the decoded list is even inspected; return `false`
without touching the tree when the list is empty, otherwise append the
items to the target node's children and return `true`.  The result is
`none` when the call would crash: a null decoded item is inserted, or the
target index cannot be resolved. -/
def load (reg : Registry) (loc : Localizer) (s : ModelState)
    (fileNameEmpty : Bool) (targetPath : List Nat) (src : XmlSource) :
    Option (Bool × ModelState) :=
  let items := loadTree reg loc src
  let s1 :=
    if targetPath = [] ∧ fileNameEmpty then
      { s with defaultRegistered := true, timerConnected := true }
    else s
  if items.length = 0 then some (false, s1)
  else
    match collectItems items with
    | none => none
    | some items' =>
        match nodeAt s1.root targetPath with
        | none => none
        | some target =>
            match insertAtPath s1.root targetPath
                    (getChildList target).length items' with
            | none => none
            | some newRoot => some (true, { s1 with root := newRoot })

/-- The selection loop of `BtBookmarksModel::copyItems`, returning the
flags `bookmarksOnly`, `targetIncluded`, `moreThanOneFolder` and the list
of value-copied bookmarks accumulated so far.  A folder breaks the loop
when the selection holds more than one item, or when `hasDescendant`
reports the destination inside it; a non-folder is copied through the
bookmark copy constructor. -/
def copyScan (reg : Registry) (loc : Localizer) (dest : Item) (total : Nat) :
    List Item → Bool × Bool × Bool × List Item
  | [] => (true, false, false, [])
  | it :: rest =>
      match it with
      | Item.folder c cs =>
          if total > 1 then (false, false, true, [])
          else if hasDescendant (Item.folder c cs) dest then
            (false, true, false, [])
          else
            let r := copyScan reg loc dest total rest
            (false, r.2.1, r.2.2.1, r.2.2.2)
      | Item.bookmark k d m t =>
          let r := copyScan reg loc dest total rest
          (r.1, r.2.1, r.2.2.1,
           copyBookmark reg loc (Item.bookmark k d m t) :: r.2.2.2)

/-- `BtBookmarksModel::copyItems(row, parent, toCopy)`: scan the selection,
append a deep copy of the solitary selected folder, reject (an empty list,
no mutation) when more than one folder is involved or the destination lies
inside the selected folder, and otherwise insert the new items at `row` of
the destination node.  `none` models a crash on an unresolvable
destination index. -/
def copyItems (reg : Registry) (loc : Localizer) (s : ModelState) (row : Nat)
    (destPath : List Nat) (toCopy : List Item) :
    Option (List Item × ModelState) :=
  match nodeAt s.root destPath with
  | none => none
  | some dest =>
      let scan := copyScan reg loc dest toCopy.length toCopy
      let bookmarksOnly := scan.1
      let targetIncluded := scan.2.1
      let newList :=
        if bookmarksOnly = false ∧ toCopy.length = 1 then
          match toCopy.head? with
          | some f => scan.2.2.2 ++ [deepCopy reg loc f]
          | none => scan.2.2.2
        else scan.2.2.2
      let moreThanOneFolder :=
        if bookmarksOnly = false ∧ toCopy.length > 1 then true
        else scan.2.2.1
      if moreThanOneFolder ∨ targetIncluded then some ([], s)
      else
        match insertAtPath s.root destPath row newList with
        | none => none
        | some newRoot => some (newList, { s with root := newRoot })

/-! Sorting.  `sortItems` compares display texts through the locale-aware
comparison of `QString`; the comparator is a parameter of the model.
`std::sort` with a strict comparator `comp` is modelled by a stable
insertion sort that places `a` before `b` exactly when `comp a b`; its
contract — the output is a permutation in which no later element strictly
precedes an earlier one — is what the theorems state. -/

/-- `Qt::SortOrder`. -/
inductive SortOrder where
  | ascending
  | descending
deriving DecidableEq

/-- `BtBookmarksModelSortAscending` / `...Descending` for a locale-aware
comparison function `lcmp`: ascending keeps `i1` before `i2` when the
comparison of their texts is negative, descending when positive. -/
def sortComparator (lcmp : String → String → Int) (order : SortOrder)
    (i1 i2 : Item) : Bool :=
  match order with
  | SortOrder.ascending => decide (lcmp (itemText i1) (itemText i2) < 0)
  | SortOrder.descending => decide (lcmp (itemText i1) (itemText i2) > 0)

/-- One insertion step of the model of `std::sort`. -/
def stdSortInsert (comp : Item → Item → Bool) (x : Item) :
    List Item → List Item
  | [] => [x]
  | y :: ys => if comp x y then x :: y :: ys else y :: stdSortInsert comp x ys

/-- Model of `std::sort(begin, end, comp)` on a child list. -/
def stdSort (comp : Item → Item → Bool) : List Item → List Item
  | [] => []
  | x :: xs => stdSortInsert comp x (stdSort comp xs)

/-- Sorting the direct children of one folder, as done for each collected
parent inside `sortItems`. -/
def sortOnce (comp : Item → Item → Bool) : Item → Item
  | Item.folder c cs => Item.folder c (stdSort comp cs)
  | b => b

mutual

/-- Net effect of the root branch of `sortItems`: the code collects every
folder of the whole tree and sorts each one's children in place; since the
comparison reads only display texts, which sorting never changes, this is
the recursive sort of every folder's children. -/
def sortTreeAll (comp : Item → Item → Bool) : Item → Item
  | Item.folder c cs => Item.folder c (stdSort comp (sortTreeList comp cs))
  | b => b

/-- Child traversal of `sortTreeAll`. -/
def sortTreeList (comp : Item → Item → Bool) : List Item → List Item
  | [] => []
  | i :: is => sortTreeAll comp i :: sortTreeList comp is

end

/-- Replace the node at a path by the image of an update function,
leaving everything off the path untouched. -/
def updateAt : Item → List Nat → (Item → Item) → Item
  | t, [], g => g t
  | Item.folder c cs, i :: p, g =>
      Item.folder c
        (match cs[i]? with
         | some ci => cs.set i (updateAt ci p g)
         | none => cs)
  | b, _ :: _, _ => b

/-- `BtBookmarksModel::sortItems(parent, order)`: nothing happens unless
the parent reference resolves to a folder; the root folder (the empty
path, i.e. the invalid index) triggers the global recursive sort, any
other folder has only its own children sorted. -/
def sortItems (lcmp : String → String → Int) (order : SortOrder)
    (t : Item) (path : List Nat) : Item :=
  match nodeAt t path with
  | some f =>
      if isFolder f then
        if path = [] then sortTreeAll (sortComparator lcmp order) t
        else updateAt t path (sortOnce (sortComparator lcmp order))
      else t
  | none => t

/-- The `std::sort` postcondition on a list: no element strictly precedes
(by `comp`) any element placed before it. -/
def noInversions (comp : Item → Item → Bool) : List Item → Bool
  | [] => true
  | a :: rest => rest.all (fun b => !comp b a) && noInversions comp rest

mutual

/-- Every folder of the tree, at every depth, has its children free of
inversions under `comp`. -/
def allFoldersSorted (comp : Item → Item → Bool) : Item → Bool
  | Item.folder _ cs => noInversions comp cs && allFoldersSortedList comp cs
  | Item.bookmark _ _ _ _ => true

/-- List companion of `allFoldersSorted`. -/
def allFoldersSortedList (comp : Item → Item → Bool) : List Item → Bool
  | [] => true
  | i :: is => allFoldersSorted comp i && allFoldersSortedList comp is

end

mutual

/-- The multiset of all folder captions of a tree, invariant under any
reordering of siblings. -/
def captionsOf : Item → Multiset String
  | Item.folder c cs => Multiset.cons c (captionsOfList cs)
  | Item.bookmark _ _ _ _ => 0

/-- List companion of `captionsOf`. -/
def captionsOfList : List Item → Multiset String
  | [] => 0
  | i :: is => captionsOf i + captionsOfList is

end

mutual

/-- The multiset of all bookmark payloads of a tree, invariant under any
reordering of siblings. -/
def bookmarksOf : Item → Multiset (String × String × String × String)
  | Item.folder _ cs => bookmarksOfList cs
  | Item.bookmark k d m t => Multiset.cons (k, d, m, t) 0

/-- List companion of `bookmarksOf`. -/
def bookmarksOfList : List Item → Multiset (String × String × String × String)
  | [] => 0
  | i :: is => bookmarksOf i + bookmarksOfList is

end

/-- Is `p` an initial segment of `q` (so that the node at `q` lies in the
subtree of the node at `p`)? -/
def pathLeads : List Nat → List Nat → Bool
  | [], _ => true
  | _ :: _, [] => false
  | a :: p, b :: q => if a = b then pathLeads p q else false

/-! The debounced save.  The private constructor configures the timer as
single-shot with a 30000 ms interval; `needSave` arms it only on the
default model and only when it is not already running. -/

/-- Timer interval fixed in `BtBookmarksModelPrivate`'s constructor:
`m_saveTimer.setInterval(30 * 1000)` milliseconds. -/
def saveTimerInterval : Nat := 30 * 1000

/-- State of the debounce timer together with a count of performed saves. -/
structure TimerState where
  active : Bool
  deadline : Nat
  saves : Nat
deriving DecidableEq

/-- `BtBookmarksModelPrivate::needSave()` at time `now`: only on the
default model, and only when the single-shot timer is not already active,
the timer is started, to expire one interval from now. -/
def needSave (isDefaultModel : Bool) (now : Nat) (s : TimerState) : TimerState :=
  if isDefaultModel then
    if s.active = false then
      { s with active := true, deadline := now + saveTimerInterval }
    else s
  else s

/-- Modelled from the spec: expiry of the armed single-shot timer invokes
the save routine through the connected slot (`slotSave`, declared in the
model's header, which is not part of this excerpt); the single-shot timer
deactivates on firing. -/
def timerFire (now : Nat) (s : TimerState) : TimerState :=
  if s.active = true ∧ now = s.deadline then
    { active := false, deadline := s.deadline, saves := s.saves + 1 }
  else s

mutual

/-- Does every bookmark of the tree carry a non-empty display text? -/
def titlesNonempty : Item → Bool
  | Item.folder _ cs => titlesNonemptyList cs
  | Item.bookmark _ _ _ t => decide (t ≠ "")

/-- List companion of `titlesNonempty`. -/
def titlesNonemptyList : List Item → Bool
  | [] => true
  | i :: is => titlesNonempty i && titlesNonemptyList is

end

/-! Concrete instantiations of the external collaborators, used by the
closed witnesses and counterexamples. -/

/-- A registry with no modules installed. -/
def emptyRegistry : Registry := fun _ => none

/-- A localization service returning keys unchanged. -/
def identityLocalizer : Localizer := fun _ k => k

/-! Claim theorems. -/

/-- C2: the claim states that `hasDescendant` is true exactly on the folder
itself and its descendants.  The code recurses with
`folder->hasDescendant(childItem)` — the child against itself — so a
folder owning any subfolder reports every item, descendant or not, as a
descendant.  At the failing input below, the folder `A` (whose only
content is the empty subfolder `B`) reports the unrelated bookmark `x` as
a descendant even though `x` occurs nowhere inside `A`. -/
theorem hasDescendant_reports_nondescendant :
    hasDescendant (Item.folder "A" [Item.folder "B" []])
      (Item.bookmark "x" "" "" "") = true ∧
    occursIn (Item.bookmark "x" "" "" "")
      (Item.folder "A" [Item.folder "B" []]) = false := by
  decide

/-- C5: the claim states that child elements with an unknown tag produce
no node and cause no error.  At top level the code appends the null result
of `handleXmlElement` to the decoded list unchecked, so the unknown
element produces a null entry; inserting that list into the tree then
dereferences the null pointer (modelled as the crash outcome `none` of
`load`).  Unknown elements nested inside a `Folder` are skipped as
claimed, and sibling `Folder`/`Bookmark` elements still decode. -/
theorem loadTree_appends_null_for_unknown_tag :
    loadTree emptyRegistry identityLocalizer
      (XmlSource.parsed (XmlElem.mk "SwordBookmarks" []
        [XmlElem.mk "Unknown" [] [],
         XmlElem.mk "Folder" [("caption", "F")] [XmlElem.mk "Weird" [] []]]))
      = [none, some (Item.folder "F" [])] ∧
    load emptyRegistry identityLocalizer
      ⟨Item.folder "Root" [], false, false⟩ false []
      (XmlSource.parsed (XmlElem.mk "SwordBookmarks" []
        [XmlElem.mk "Unknown" [] [],
         XmlElem.mk "Folder" [("caption", "F")] [XmlElem.mk "Weird" [] []]]))
      = none := by
  decide

/-- C6: on a source that is absent, empty or unreadable, or whose root
element is not tagged `SwordBookmarks`, `load` returns false and the tree
is left unmodified, whatever the target index and file name were. -/
theorem load_bad_source_fails_without_mutation
    (reg : Registry) (loc : Localizer) (s : ModelState) (fileNameEmpty : Bool)
    (targetPath : List Nat) (src : XmlSource) (h : badSource src = true) :
    ∃ s', load reg loc s fileNameEmpty targetPath src = some (false, s') ∧
      s'.root = s.root := by
  have hempty : loadTree reg loc src = [] := by
    cases src with
    | absent => rfl
    | unparseable => simp [loadTree, loadTreeFromDoc, XmlElem.tag]
    | parsed doc =>
        have hd : ¬doc.tag = "SwordBookmarks" := by simpa [badSource] using h
        simp [loadTree, loadTreeFromDoc, hd]
  refine ⟨if targetPath = [] ∧ fileNameEmpty then
            { s with defaultRegistered := true, timerConnected := true }
          else s, ?_, ?_⟩
  · simp [load, hempty]
  · by_cases hc : targetPath = [] ∧ fileNameEmpty = true <;> simp [hc]

/-- Witness for C6 at a concrete bad source: an absent default file. -/
theorem load_bad_source_fails_without_mutation_witness :
    badSource XmlSource.absent = true ∧
    ∃ s', load emptyRegistry identityLocalizer
        ⟨Item.folder "Root" [], false, false⟩ true [] XmlSource.absent =
          some (false, s') ∧
      s'.root = Item.folder "Root" [] :=
  ⟨by decide,
   load_bad_source_fails_without_mutation emptyRegistry identityLocalizer
     ⟨Item.folder "Root" [], false, false⟩ true [] XmlSource.absent (by decide)⟩

/-- C7: on the default model, a first `needSave` at time `t1` arms the
single-shot timer to fire one 30000 ms interval later; a second `needSave`
inside that window changes nothing — neither resetting nor extending the
deadline — and the expiry at `t1 + 30000` performs exactly one save and
disarms the timer. -/
theorem needSave_debounces_thirty_seconds (s : TimerState) (t1 t2 : Nat)
    (h0 : s.active = false) (h1 : t1 ≤ t2)
    (h2 : t2 < t1 + saveTimerInterval) :
    needSave true t2 (needSave true t1 s) = needSave true t1 s ∧
    (needSave true t1 s).active = true ∧
    (needSave true t1 s).deadline = t1 + saveTimerInterval ∧
    (timerFire (t1 + saveTimerInterval) (needSave true t1 s)).saves
      = s.saves + 1 ∧
    (timerFire (t1 + saveTimerInterval) (needSave true t1 s)).active
      = false := by
  simp [needSave, timerFire, h0]

/-- Witness for C7: two dirty marks ten seconds apart, one save at 30 s. -/
theorem needSave_debounces_thirty_seconds_witness :
    needSave true 10000 (needSave true 0 ⟨false, 0, 0⟩)
      = needSave true 0 ⟨false, 0, 0⟩ ∧
    (needSave true 0 ⟨false, 0, 0⟩).active = true ∧
    (needSave true 0 ⟨false, 0, 0⟩).deadline = 0 + saveTimerInterval ∧
    (timerFire (0 + saveTimerInterval) (needSave true 0 ⟨false, 0, 0⟩)).saves
      = 0 + 1 ∧
    (timerFire (0 + saveTimerInterval) (needSave true 0 ⟨false, 0, 0⟩)).active
      = false :=
  needSave_debounces_thirty_seconds ⟨false, 0, 0⟩ 0 10000 (by decide)
    (by decide) (by decide)

/-- C10: a `load` call with an empty file name and the invalid root index
registers the model as the default model and connects the save timer even
when the source file is absent and the call returns false; and on any
source whatsoever, whenever such a call returns at all, the returned state
carries the registration — the side effect does not depend on success. -/
theorem load_registers_default_even_on_failure
    (reg : Registry) (loc : Localizer) (s : ModelState) :
    load reg loc s true [] XmlSource.absent =
      some (false, { s with defaultRegistered := true, timerConnected := true }) ∧
    ∀ (src : XmlSource) (r : Bool × ModelState),
      load reg loc s true [] src = some r →
      r.2.defaultRegistered = true ∧ r.2.timerConnected = true := by
  constructor
  · simp [load, loadTree]
  · intro src r h
    simp only [load] at h
    split at h
    · cases h; exact ⟨rfl, rfl⟩
    · split at h
      · exact absurd h (by simp)
      · split at h
        · exact absurd h (by simp)
        · split at h
          · exact absurd h (by simp)
          · cases h; exact ⟨rfl, rfl⟩

/-- C9 counterexample: the claim states the decoded display text of a
title-less `Bookmark` element is the header synthesized from its key and
module.  The constructor synthesizes the header before the attributes are
assigned, from the still-empty key and module fields, so the decoded text
is " (unknown)" and not the header of the element's key. -/
theorem untitled_bookmark_decode_counterexample :
    handleXmlElement emptyRegistry identityLocalizer
      (XmlElem.mk "Bookmark" [("key", "John 3:16"), ("modulename", "KJV")] [])
      = some (Item.bookmark "John 3:16" "" "KJV" " (unknown)") ∧
    " (unknown)" ≠
      toHeader "John 3:16" (moduleNameOrUnknown emptyRegistry "KJV") := by
  decide

/-- C9 (amended): encoding writes the `title` attribute exactly when the
bookmark's display text is non-empty; decoding a `Bookmark` element
without a `title` attribute yields the display text synthesized at
construction time from the still-empty key and module fields — the
non-empty string " (unknown)" — so an empty display text never decodes
back to an empty display text. -/
theorem title_attribute_encoding_decoding
    (reg : Registry) (loc : Localizer) (k d m : String) :
    (∀ t, t ≠ "" →
      lookupAttr "title" (saveItem reg (Item.bookmark k d m t)).attrs
        = some t) ∧
    lookupAttr "title" (saveItem reg (Item.bookmark k d m "")).attrs = none ∧
    (∀ (attrs : List (String × String)) (children : List XmlElem),
      lookupAttr "title" attrs = none → reg "" = none →
      handleXmlElement reg loc (XmlElem.mk "Bookmark" attrs children)
        = some (Item.bookmark ((lookupAttr "key" attrs).getD "")
            ((lookupAttr "description" attrs).getD "")
            ((lookupAttr "modulename" attrs).getD "") " (unknown)")) ∧
    " (unknown)" ≠ "" := by
  refine ⟨?_, ?_, ?_, by decide⟩
  · intro t ht
    simp [saveItem, XmlElem.attrs, lookupAttr, ht]
  · simp [saveItem, XmlElem.attrs, lookupAttr]
  · intro attrs children hattr hr
    simp [handleXmlElement, hattr, bookmarkDisplayKey, moduleNameOrUnknown,
      hr, toHeader]

/-- Witness for C9 at a concrete bookmark and a concrete title-less
element. -/
theorem title_attribute_encoding_decoding_witness :
    lookupAttr "title"
      (saveItem emptyRegistry (Item.bookmark "k" "d" "M" "caption")).attrs
        = some "caption" ∧
    lookupAttr "title"
      (saveItem emptyRegistry (Item.bookmark "k" "d" "M" "")).attrs = none ∧
    handleXmlElement emptyRegistry identityLocalizer
      (XmlElem.mk "Bookmark" [("key", "k")] [])
        = some (Item.bookmark "k" "" "" " (unknown)") := by
  have h := title_attribute_encoding_decoding emptyRegistry identityLocalizer
    "k" "d" "M"
  refine ⟨h.1 "caption" (by decide), h.2.1, ?_⟩
  have h3 := h.2.2.1 [("key", "k")] [] (by decide) rfl
  simpa using h3

/-- Membership in a child list makes the scan `listContains` succeed. -/
theorem listContains_of_mem {cs : List Item} {x : Item} (h : x ∈ cs) :
    listContains cs x = true := by
  induction cs with
  | nil => cases h
  | cons c rest ih =>
      rcases List.mem_cons.1 h with rfl | h'
      · simp [listContains]
      · by_cases hc : c = x <;> simp [listContains, hc, ih h']

/-- Every node passes the leading self check of `hasDescendant`. -/
theorem hasDescendant_self (c : Item) : hasDescendant c c = true := by
  cases c <;> simp [hasDescendant]

/-- A folder anywhere in the child list satisfies the (self-referential)
recursive check of the `hasDescendant` loop. -/
theorem anyFolderChildSelfCheck_of_mem : ∀ (cs : List Item) (x : Item),
    x ∈ cs → isFolder x = true → anyFolderChildSelfCheck cs = true
  | Item.folder cap cc :: rest, _, _, _ => by
      simp [anyFolderChildSelfCheck, hasDescendant_self]
  | Item.bookmark k d m t :: rest, x, hx, hf => by
      rcases List.mem_cons.1 hx with he | h'
      · rw [he] at hf
        simp [isFolder] at hf
      · have ih := anyFolderChildSelfCheck_of_mem rest x h' hf
        simp [anyFolderChildSelfCheck, ih]

/-- An occurrence in a child list names a child whose subtree holds it. -/
theorem occursInList_exists {d : Item} {cs : List Item}
    (h : occursInList d cs = true) : ∃ x ∈ cs, occursIn d x = true := by
  induction cs with
  | nil => simp [occursInList] at h
  | cons c rest ih =>
      simp only [occursInList, Bool.or_eq_true] at h
      rcases h with hc | hr
      · exact ⟨c, List.mem_cons_self c rest, hc⟩
      · rcases ih hr with ⟨x, hx, hox⟩
        exact ⟨x, List.mem_cons_of_mem c hx, hox⟩

/-- A node's own self check of `occursIn` holds. -/
theorem occursIn_self (c : Item) : occursIn c c = true := by
  cases c <;> simp [occursIn]

/-- Although `hasDescendant` over-approximates, it does report every node
that really occurs inside the folder — the direction `copyItems` relies
on to reject a folder dropped into its own subtree. -/
theorem hasDescendant_of_occursIn (f d : Item) (hf : isFolder f = true)
    (h : occursIn d f = true) : hasDescendant f d = true := by
  cases f with
  | bookmark k d' m t => simp [isFolder] at hf
  | folder c cs =>
      by_cases he : Item.folder c cs = d
      · simp [hasDescendant, he]
      · have hl : occursInList d cs = true := by
          simpa [occursIn, he] using h
        rcases occursInList_exists hl with ⟨x, hx, hox⟩
        by_cases hc : listContains cs d = true
        · simp [hasDescendant, hc]
        · have hxd : x ≠ d := by
            intro he'
            exact hc (listContains_of_mem (he' ▸ hx))
          have hxf : isFolder x = true := by
            cases x with
            | folder cap cc => rfl
            | bookmark k' d'' m' t' => simp [occursIn, hxd] at hox
          simp [hasDescendant, anyFolderChildSelfCheck_of_mem cs x hx hxf]

/-- C3: a `copyItems` call whose selection is exactly one folder and whose
destination node is that folder itself or occurs anywhere inside it
returns the empty list and leaves the model state — in particular every
node's children — unchanged. -/
theorem copyItems_rejects_folder_into_own_subtree
    (reg : Registry) (loc : Localizer) (s : ModelState) (row : Nat)
    (destPath : List Nat) (f dest : Item)
    (hf : isFolder f = true)
    (hdest : nodeAt s.root destPath = some dest)
    (hin : occursIn dest f = true) :
    copyItems reg loc s row destPath [f] = some ([], s) := by
  have hD : hasDescendant f dest = true := hasDescendant_of_occursIn f dest hf hin
  cases f with
  | bookmark k d m t => simp [isFolder] at hf
  | folder c cs => simp [copyItems, hdest, copyScan, hD]

/-- Witness for C3: copying folder A onto its grandchild position. -/
theorem copyItems_rejects_folder_into_own_subtree_witness :
    copyItems emptyRegistry identityLocalizer
      ⟨Item.folder "Root" [Item.folder "A" [Item.folder "B" []]], false, false⟩
      0 [0, 0] [Item.folder "A" [Item.folder "B" []]]
      = some ([],
          ⟨Item.folder "Root" [Item.folder "A" [Item.folder "B" []]],
           false, false⟩) :=
  copyItems_rejects_folder_into_own_subtree emptyRegistry identityLocalizer
    ⟨Item.folder "Root" [Item.folder "A" [Item.folder "B" []]], false, false⟩
    0 [0, 0] (Item.folder "A" [Item.folder "B" []]) (Item.folder "B" [])
    (by decide) (by decide) (by decide)

/-- Any folder among a selection of more than one item trips the
`moreThanOneFolder` flag of the `copyItems` scan. -/
theorem copyScan_flags_multi (reg : Registry) (loc : Localizer) (dest : Item)
    (total : Nat) (htot : 1 < total) :
    ∀ l : List Item, (∃ x ∈ l, isFolder x = true) →
      (copyScan reg loc dest total l).2.2.1 = true
  | [], h => by
      rcases h with ⟨x, hx, _⟩
      cases hx
  | Item.folder c cs :: rest, _ => by
      simp [copyScan, htot]
  | Item.bookmark k d m t :: rest, h => by
      rcases h with ⟨x, hx, hfx⟩
      rcases List.mem_cons.1 hx with rfl | hx'
      · simp [isFolder] at hfx
      · have hr := copyScan_flags_multi reg loc dest total htot rest ⟨x, hx', hfx⟩
        simp [copyScan, hr]

/-- C4: a `copyItems` call whose selection holds at least two items, at
least one of them a folder — so in particular more than one folder, or
one folder plus anything else — returns the empty list and leaves the
model state unchanged. -/
theorem copyItems_rejects_folder_among_several
    (reg : Registry) (loc : Localizer) (s : ModelState) (row : Nat)
    (destPath : List Nat) (sel : List Item) (dest : Item)
    (hdest : nodeAt s.root destPath = some dest)
    (hlen : 2 ≤ sel.length) (hex : ∃ x ∈ sel, isFolder x = true) :
    copyItems reg loc s row destPath sel = some ([], s) := by
  have hmf := copyScan_flags_multi reg loc dest sel.length (by omega) sel hex
  have hgt : sel.length > 1 := by omega
  simp only [copyItems, hdest]
  have hc : (if (copyScan reg loc dest sel.length sel).1 = false ∧
        sel.length > 1 then true
      else (copyScan reg loc dest sel.length sel).2.2.1) = true := by
    split
    · rfl
    · exact hmf
  simp [hc]

/-- Witness for C4: a selection of two folders. -/
theorem copyItems_rejects_folder_among_several_witness :
    copyItems emptyRegistry identityLocalizer
      ⟨Item.folder "Root" [Item.folder "A" [], Item.folder "B" []],
       false, false⟩
      0 [] [Item.folder "A" [], Item.folder "B" []]
      = some ([],
          ⟨Item.folder "Root" [Item.folder "A" [], Item.folder "B" []],
           false, false⟩) :=
  copyItems_rejects_folder_among_several emptyRegistry identityLocalizer
    ⟨Item.folder "Root" [Item.folder "A" [], Item.folder "B" []],
     false, false⟩
    0 [] [Item.folder "A" [], Item.folder "B" []]
    (Item.folder "Root" [Item.folder "A" [], Item.folder "B" []])
    (by decide) (by decide)
    ⟨Item.folder "A" [], by decide, by decide⟩

mutual

/-- Decoding the saved element of a node reproduces the node, provided
every bookmark below it carries a non-empty display text (so that the
`title` attribute is present and overwrites the constructor-synthesized
text). -/
theorem handleXml_saveItem (reg reg' : Registry) (loc : Localizer) :
    ∀ it : Item, titlesNonempty it = true →
      handleXmlElement reg loc (saveItem reg' it) = some it
  | Item.folder c cs, h => by
      have hl := handleXml_saveItemList reg reg' loc cs
        (by simpa [titlesNonempty] using h)
      simp [saveItem, handleXmlElement, lookupAttr, hl]
  | Item.bookmark k d m t, h => by
      have ht : ¬t = "" := by simpa [titlesNonempty] using h
      simp [saveItem, handleXmlElement, lookupAttr, ht]

/-- List companion of `handleXml_saveItem` for the children of a folder. -/
theorem handleXml_saveItemList (reg reg' : Registry) (loc : Localizer) :
    ∀ cs : List Item, titlesNonemptyList cs = true →
      handleXmlList reg loc (saveItemList reg' cs) = cs
  | [], _ => rfl
  | i :: is, h => by
      have h' : titlesNonempty i = true ∧ titlesNonemptyList is = true := by
        simpa [titlesNonemptyList] using h
      have h0 := handleXml_saveItem reg reg' loc i h'.1
      have h2 := handleXml_saveItemList reg reg' loc is h'.2
      simp [saveItemList, handleXmlList, h0, h2]

end

/-- Top-level companion: mapping the decoder over the saved elements of a
child list yields exactly the original children, each wrapped in `some`. -/
theorem map_handle_saveItemList (reg reg' : Registry) (loc : Localizer) :
    ∀ cs : List Item, titlesNonemptyList cs = true →
      (saveItemList reg' cs).map (handleXmlElement reg loc) = cs.map some
  | [], _ => rfl
  | i :: is, h => by
      have h' : titlesNonempty i = true ∧ titlesNonemptyList is = true := by
        simpa [titlesNonemptyList] using h
      have h0 := handleXml_saveItem reg reg' loc i h'.1
      have h2 := map_handle_saveItemList reg reg' loc is h'.2
      simp [saveItemList, h0, h2]

/-- C1 counterexample: a bookmark with an empty display text does not
survive the round trip — its title decodes as the synthesized header
" (unknown)" instead of the original empty string, so the decoded tree is
not isomorphic to the original in the title field. -/
theorem roundtrip_empty_title_counterexample :
    loadTree emptyRegistry identityLocalizer
      (XmlSource.parsed (serializeTreeFromRootItem emptyRegistry
        (Item.folder "Root" [Item.bookmark "k" "d" "M" ""])))
      = [some (Item.bookmark "k" "d" "M" " (unknown)")] ∧
    loadTree emptyRegistry identityLocalizer
      (XmlSource.parsed (serializeTreeFromRootItem emptyRegistry
        (Item.folder "Root" [Item.bookmark "k" "d" "M" ""])))
      ≠ (getChildList
          (Item.folder "Root" [Item.bookmark "k" "d" "M" ""])).map some := by
  decide

/-- C1 (amended): decoding the serialization of a tree reproduces the
tree's children exactly — folder captions, bookmark keys, descriptions,
module names and the relative order of siblings are preserved for every
tree, and bookmark titles are preserved provided every bookmark's display
text is non-empty (an empty title is replaced by the synthesized header
" (unknown)"; `moduledescription` is lossy by design). -/
theorem loadTree_of_serializeTree (reg reg' : Registry) (loc : Localizer)
    (t : Item) (h : titlesNonempty t = true) :
    loadTree reg loc (XmlSource.parsed (serializeTreeFromRootItem reg' t)) =
      (getChildList t).map some := by
  have hcs : titlesNonemptyList (getChildList t) = true := by
    cases t with
    | folder c cs => simpa [titlesNonempty, getChildList] using h
    | bookmark k d m ti => rfl
  simp [loadTree, loadTreeFromDoc, serializeTreeFromRootItem, XmlElem.tag,
    XmlElem.childElems, map_handle_saveItemList reg reg' loc _ hcs]

/-- Witness for C1 at a two-level tree with non-empty titles. -/
theorem loadTree_of_serializeTree_witness :
    titlesNonempty (Item.folder "Root"
      [Item.folder "F" [Item.bookmark "k" "d" "M" "t"],
       Item.bookmark "k2" "" "" "t2"]) = true ∧
    loadTree emptyRegistry identityLocalizer
      (XmlSource.parsed (serializeTreeFromRootItem emptyRegistry
        (Item.folder "Root"
          [Item.folder "F" [Item.bookmark "k" "d" "M" "t"],
           Item.bookmark "k2" "" "" "t2"])))
      = (getChildList (Item.folder "Root"
          [Item.folder "F" [Item.bookmark "k" "d" "M" "t"],
           Item.bookmark "k2" "" "" "t2"])).map some :=
  ⟨by decide,
   loadTree_of_serializeTree emptyRegistry emptyRegistry identityLocalizer
     (Item.folder "Root"
       [Item.folder "F" [Item.bookmark "k" "d" "M" "t"],
        Item.bookmark "k2" "" "" "t2"]) (by decide)⟩

/-- Inserting into the sorted tail permutes the element into the list. -/
theorem stdSortInsert_perm (comp : Item → Item → Bool) (x : Item) :
    ∀ l : List Item, (stdSortInsert comp x l).Perm (x :: l)
  | [] => List.Perm.refl _
  | y :: ys => by
      rw [stdSortInsert]
      split
      · exact List.Perm.refl _
      · exact ((stdSortInsert_perm comp x ys).cons y).trans
          (List.Perm.swap x y ys)

/-- The model of `std::sort` returns a permutation of its input. -/
theorem stdSort_perm (comp : Item → Item → Bool) :
    ∀ l : List Item, (stdSort comp l).Perm l
  | [] => List.Perm.refl _
  | x :: xs =>
      (stdSortInsert_perm comp x (stdSort comp xs)).trans
        ((stdSort_perm comp xs).cons x)

/-- Unfolding of the inversion-freedom check at a cons cell. -/
theorem noInversions_cons (comp : Item → Item → Bool) (a : Item)
    (l : List Item) :
    noInversions comp (a :: l) = true ↔
      (∀ b ∈ l, comp b a = false) ∧ noInversions comp l = true := by
  simp [noInversions, List.all_eq_true]

/-- Inserting into an inversion-free list keeps it inversion-free, for a
comparator whose complement is total and transitive (a strict weak
order). -/
theorem noInversions_insert (comp : Item → Item → Bool)
    (htot : ∀ a b, comp a b = false ∨ comp b a = false)
    (htrans : ∀ a b c, comp b a = false → comp c b = false →
      comp c a = false)
    (x : Item) :
    ∀ l : List Item, noInversions comp l = true →
      noInversions comp (stdSortInsert comp x l) = true
  | [], _ => by simp [stdSortInsert, noInversions]
  | y :: ys, h => by
      rcases (noInversions_cons comp y ys).1 h with ⟨hy1, hy2⟩
      rw [stdSortInsert]
      split
      · rename_i hxy
        have hyx : comp y x = false := by
          rcases htot x y with h1 | h1
          · rw [h1] at hxy
            cases hxy
          · exact h1
        refine (noInversions_cons comp x (y :: ys)).2 ⟨?_, h⟩
        intro b hb
        rcases List.mem_cons.1 hb with rfl | hb'
        · exact hyx
        · exact htrans x y b hyx (hy1 b hb')
      · rename_i hxy
        have hxyf : comp x y = false := by
          cases hcc : comp x y
          · rfl
          · exact absurd hcc hxy
        have hrec := noInversions_insert comp htot htrans x ys hy2
        refine (noInversions_cons comp y (stdSortInsert comp x ys)).2
          ⟨?_, hrec⟩
        intro b hb
        have hmem := (stdSortInsert_perm comp x ys).mem_iff.1 hb
        rcases List.mem_cons.1 hmem with rfl | hb'
        · exact hxyf
        · exact hy1 b hb'

/-- The model of `std::sort` yields an inversion-free list for a strict
weak order comparator. -/
theorem noInversions_stdSort (comp : Item → Item → Bool)
    (htot : ∀ a b, comp a b = false ∨ comp b a = false)
    (htrans : ∀ a b c, comp b a = false → comp c b = false →
      comp c a = false) :
    ∀ l : List Item, noInversions comp (stdSort comp l) = true
  | [] => rfl
  | x :: xs => noInversions_insert comp htot htrans x _
      (noInversions_stdSort comp htot htrans xs)

/-- The recursive child traversal of the global sort is a map. -/
theorem sortTreeList_eq_map (comp : Item → Item → Bool) :
    ∀ cs : List Item, sortTreeList comp cs = cs.map (sortTreeAll comp)
  | [] => rfl
  | i :: is => by
      rw [sortTreeList, sortTreeList_eq_map comp is, List.map_cons]

/-- The list check of `allFoldersSorted` is the conjunction over members. -/
theorem allFoldersSortedList_eq_all (comp : Item → Item → Bool) :
    ∀ cs : List Item, allFoldersSortedList comp cs = true ↔
      ∀ x ∈ cs, allFoldersSorted comp x = true
  | [] => by simp [allFoldersSortedList]
  | i :: is => by
      rw [allFoldersSortedList]
      simp [Bool.and_eq_true, allFoldersSortedList_eq_all comp is]

mutual

/-- After the global sort, every folder of the tree at every depth has
inversion-free children. -/
theorem allFoldersSorted_sortTreeAll (comp : Item → Item → Bool)
    (htot : ∀ a b, comp a b = false ∨ comp b a = false)
    (htrans : ∀ a b c, comp b a = false → comp c b = false →
      comp c a = false) :
    ∀ t : Item, allFoldersSorted comp (sortTreeAll comp t) = true
  | Item.bookmark k d m ti => rfl
  | Item.folder c cs => by
      have hlist := allFoldersSorted_sortTreeList comp htot htrans cs
      have hmem : ∀ x ∈ stdSort comp (sortTreeList comp cs),
          allFoldersSorted comp x = true := by
        intro x hx
        exact hlist x ((stdSort_perm comp _).mem_iff.1 hx)
      have hs := noInversions_stdSort comp htot htrans (sortTreeList comp cs)
      rw [sortTreeAll, allFoldersSorted, hs,
        (allFoldersSortedList_eq_all comp _).2 hmem]
      rfl

/-- List companion of `allFoldersSorted_sortTreeAll`. -/
theorem allFoldersSorted_sortTreeList (comp : Item → Item → Bool)
    (htot : ∀ a b, comp a b = false ∨ comp b a = false)
    (htrans : ∀ a b c, comp b a = false → comp c b = false →
      comp c a = false) :
    ∀ cs : List Item, ∀ x ∈ sortTreeList comp cs,
      allFoldersSorted comp x = true
  | [] => by simp [sortTreeList]
  | i :: is => by
      intro x hx
      rw [sortTreeList] at hx
      rcases List.mem_cons.1 hx with rfl | hx'
      · exact allFoldersSorted_sortTreeAll comp htot htrans i
      · exact allFoldersSorted_sortTreeList comp htot htrans is x hx'

end

/-- The caption multiset of a child list is the sum over its members. -/
theorem captionsOfList_eq_sum :
    ∀ cs : List Item, captionsOfList cs = (cs.map captionsOf).sum
  | [] => rfl
  | i :: is => by
      rw [captionsOfList, captionsOfList_eq_sum is, List.map_cons,
        List.sum_cons]

/-- Caption multisets are invariant under permutation of siblings. -/
theorem captionsOfList_perm {l l' : List Item} (h : l.Perm l') :
    captionsOfList l = captionsOfList l' := by
  rw [captionsOfList_eq_sum, captionsOfList_eq_sum]
  exact (h.map captionsOf).sum_eq

/-- The bookmark multiset of a child list is the sum over its members. -/
theorem bookmarksOfList_eq_sum :
    ∀ cs : List Item, bookmarksOfList cs = (cs.map bookmarksOf).sum
  | [] => rfl
  | i :: is => by
      rw [bookmarksOfList, bookmarksOfList_eq_sum is, List.map_cons,
        List.sum_cons]

/-- Bookmark multisets are invariant under permutation of siblings. -/
theorem bookmarksOfList_perm {l l' : List Item} (h : l.Perm l') :
    bookmarksOfList l = bookmarksOfList l' := by
  rw [bookmarksOfList_eq_sum, bookmarksOfList_eq_sum]
  exact (h.map bookmarksOf).sum_eq

mutual

/-- The global sort loses and invents no folder caption. -/
theorem captionsOf_sortTreeAll (comp : Item → Item → Bool) :
    ∀ t : Item, captionsOf (sortTreeAll comp t) = captionsOf t
  | Item.bookmark k d m ti => rfl
  | Item.folder c cs => by
      have h1 : captionsOfList (stdSort comp (sortTreeList comp cs)) =
          captionsOfList (sortTreeList comp cs) :=
        captionsOfList_perm (stdSort_perm comp _)
      have h2 := captionsOfList_sortTreeList comp cs
      rw [sortTreeAll, captionsOf, captionsOf, h1, h2]

/-- List companion of `captionsOf_sortTreeAll`. -/
theorem captionsOfList_sortTreeList (comp : Item → Item → Bool) :
    ∀ cs : List Item,
      captionsOfList (sortTreeList comp cs) = captionsOfList cs
  | [] => rfl
  | i :: is => by
      have h1 := captionsOf_sortTreeAll comp i
      have h2 := captionsOfList_sortTreeList comp is
      rw [sortTreeList, captionsOfList, captionsOfList, h1, h2]

end

mutual

/-- The global sort loses and invents no bookmark. -/
theorem bookmarksOf_sortTreeAll (comp : Item → Item → Bool) :
    ∀ t : Item, bookmarksOf (sortTreeAll comp t) = bookmarksOf t
  | Item.bookmark k d m ti => rfl
  | Item.folder c cs => by
      have h1 : bookmarksOfList (stdSort comp (sortTreeList comp cs)) =
          bookmarksOfList (sortTreeList comp cs) :=
        bookmarksOfList_perm (stdSort_perm comp _)
      have h2 := bookmarksOfList_sortTreeList comp cs
      rw [sortTreeAll, bookmarksOf, bookmarksOf, h1, h2]

/-- List companion of `bookmarksOf_sortTreeAll`. -/
theorem bookmarksOfList_sortTreeList (comp : Item → Item → Bool) :
    ∀ cs : List Item,
      bookmarksOfList (sortTreeList comp cs) = bookmarksOfList cs
  | [] => rfl
  | i :: is => by
      have h1 := bookmarksOf_sortTreeAll comp i
      have h2 := bookmarksOfList_sortTreeList comp is
      rw [sortTreeList, bookmarksOfList, bookmarksOfList, h1, h2]

end

/-- Updating along a resolvable path yields the updated node there. -/
theorem nodeAt_updateAt (g : Item → Item) :
    ∀ (t : Item) (p : List Nat) (n : Item),
      nodeAt t p = some n → nodeAt (updateAt t p g) p = some (g n)
  | t, [], n, h => by
      rw [nodeAt] at h
      cases h
      rw [updateAt, nodeAt]
  | Item.bookmark k d m ti, i :: p, n, h => by
      rw [nodeAt] at h
      simp [getChildList] at h
  | Item.folder c cs, i :: p, n, h => by
      rw [nodeAt] at h
      cases hg : (getChildList (Item.folder c cs))[i]? with
      | none => rw [hg] at h; cases h
      | some ci =>
          rw [hg] at h
          have hg' : cs[i]? = some ci := hg
          have hi : i < cs.length := (List.getElem?_eq_some_iff.1 hg').1
          have hrec := nodeAt_updateAt g ci p n h
          rw [updateAt]
          rw [nodeAt]
          simp only [getChildList, hg', List.getElem?_set_self hi]
          exact hrec

/-- Updating at `p` leaves the node at any path that neither extends nor
is extended by `p` untouched. -/
theorem nodeAt_updateAt_off (g : Item → Item) :
    ∀ (t : Item) (p q : List Nat),
      pathLeads p q = false → pathLeads q p = false →
      nodeAt (updateAt t p g) q = nodeAt t q
  | _, [], q, hpq, _ => by cases hpq
  | _, _ :: _, [], _, hqp => by cases hqp
  | Item.bookmark k d m ti, i :: p, j :: q, _, _ => by
      rw [updateAt]
      exact fun c cs h => Item.noConfusion h
  | Item.folder c cs, i :: p, j :: q, hpq, hqp => by
      by_cases hij : i = j
      · subst hij
        rw [pathLeads] at hpq hqp
        simp only [if_true, eq_self_iff_true] at hpq hqp
        rw [updateAt]
        cases hg : cs[i]? with
        | none => rfl
        | some ci =>
            have hi : i < cs.length := (List.getElem?_eq_some_iff.1 hg).1
            have hrec := nodeAt_updateAt_off g ci p q hpq hqp
            simp only [nodeAt, getChildList, hg, List.getElem?_set_self hi]
            exact hrec
      · rw [updateAt]
        cases hg : cs[i]? with
        | none => rfl
        | some ci =>
            simp only [nodeAt, getChildList, List.getElem?_set_ne hij]

/-- C8: when the parent reference resolves to the root folder, `sortItems`
reorders the children of every folder of the entire tree at every depth —
each folder's children independently inversion-free in the requested
direction, with all captions and bookmarks preserved; when it resolves to
a non-root folder, only that folder's children are sorted (an
inversion-free permutation of its previous children) and every node on a
path diverging from the parent's is untouched. -/
theorem sortItems_sorts_recursively_from_root
    (lcmp : String → String → Int) (order : SortOrder)
    (htot : ∀ a b, sortComparator lcmp order a b = false ∨
      sortComparator lcmp order b a = false)
    (htrans : ∀ a b c, sortComparator lcmp order b a = false →
      sortComparator lcmp order c b = false →
      sortComparator lcmp order c a = false)
    (t : Item) (path : List Nat) :
    (path = [] → isFolder t = true →
      allFoldersSorted (sortComparator lcmp order)
        (sortItems lcmp order t path) = true ∧
      captionsOf (sortItems lcmp order t path) = captionsOf t ∧
      bookmarksOf (sortItems lcmp order t path) = bookmarksOf t) ∧
    (∀ cap cs, path ≠ [] →
      nodeAt t path = some (Item.folder cap cs) →
      nodeAt (sortItems lcmp order t path) path =
        some (Item.folder cap (stdSort (sortComparator lcmp order) cs)) ∧
      (stdSort (sortComparator lcmp order) cs).Perm cs ∧
      noInversions (sortComparator lcmp order)
        (stdSort (sortComparator lcmp order) cs) = true ∧
      (∀ q, pathLeads path q = false → pathLeads q path = false →
        nodeAt (sortItems lcmp order t path) q = nodeAt t q)) := by
  constructor
  · intro hp hf
    subst hp
    have hs : sortItems lcmp order t [] =
        sortTreeAll (sortComparator lcmp order) t := by
      simp [sortItems, nodeAt, hf]
    rw [hs]
    exact ⟨allFoldersSorted_sortTreeAll _ htot htrans t,
      captionsOf_sortTreeAll _ t, bookmarksOf_sortTreeAll _ t⟩
  · intro cap cs hp hn
    have hs : sortItems lcmp order t path =
        updateAt t path (sortOnce (sortComparator lcmp order)) := by
      simp [sortItems, hn, isFolder, hp]
    refine ⟨?_, stdSort_perm _ cs,
      noInversions_stdSort _ htot htrans cs, ?_⟩
    · rw [hs]
      have := nodeAt_updateAt (sortOnce (sortComparator lcmp order)) t path
        (Item.folder cap cs) hn
      simpa [sortOnce] using this
    · intro q h1 h2
      rw [hs]
      exact nodeAt_updateAt_off _ t path q h1 h2

/-- A concrete locale comparison for the witness: order by text length. -/
def lengthCompare : String → String → Int := fun a b =>
  (a.length : Int) - (b.length : Int)

/-- A concrete tree with folders at two depths for the witness. -/
def exampleTree : Item :=
  Item.folder "Root"
    [Item.folder "bb"
      [Item.bookmark "" "" "" "yyy", Item.bookmark "" "" "" "x"],
     Item.bookmark "" "" "" "a"]

/-- Witness for C8 at the root of a two-level tree, under the length
comparison. -/
theorem sortItems_sorts_recursively_from_root_witness :
    allFoldersSorted (sortComparator lengthCompare SortOrder.ascending)
      (sortItems lengthCompare SortOrder.ascending exampleTree []) = true ∧
    captionsOf (sortItems lengthCompare SortOrder.ascending exampleTree []) =
      captionsOf exampleTree ∧
    bookmarksOf (sortItems lengthCompare SortOrder.ascending exampleTree []) =
      bookmarksOf exampleTree := by
  have h := sortItems_sorts_recursively_from_root lengthCompare
    SortOrder.ascending
    (by
      intro a b
      simp only [sortComparator, lengthCompare, decide_eq_false_iff_not,
        not_lt]
      omega)
    (by
      intro a b c h1 h2
      simp only [sortComparator, lengthCompare, decide_eq_false_iff_not,
        not_lt] at h1 h2 ⊢
      omega)
    exampleTree []
  exact h.1 rfl rfl

end BtBookmarks
